import Mathlib

/-!
Shallow embedding of the foosball ELO system (src/foosball.py) and proofs of
the specification claims about it.

Conventions of the embedding:
* Python ints are `ℤ`; Python float arithmetic is modelled exactly, as `ℚ`
  where the source only adds, multiplies and divides (record merging,
  averages, win-rate derivation) and as `ℝ` where the source uses the
  transcendental `math.pow` (the ELO expected-score formula).
* Python's builtin `round` (round half to even) is `pyroundQ` on `ℚ` and
  `pyround` on `ℝ`.
* The global `players` dict is an explicit registry value
  `Registry = String → Option PlayerRecord` threaded through operations.
* Free-text command parsing, console printing and file I/O are the glue
  excluded by the spec; operations are modelled at the structured boundary
  (parsed team rosters, win-type token, parsed snapshot-line fields).
-/

namespace Foosball

/-- K factor of the ELO update (source line 10). -/
def K_FACTOR : ℤ := 32

/-- Minimum / default starting rating (source line 11). -/
def RATING_MIN : ℤ := 100

/-- Maximum rating (source line 12). -/
def RATING_MAX : ℤ := 2999

/-- Multipliers for win types (source lines 15-21); `none` for any token not in
the dict. -/
def WIN_TYPE_MULTIPLIERS (s : String) : Option ℚ :=
  if s = "win" then some 1.0
  else if s = "smallwin" then some 0.75
  else if s = "closewin" then some 0.5
  else if s = "bigwin" then some 1.25
  else if s = "perfectwin" then some 1.5
  else none

/-- Ranking thresholds, highest first (source lines 24-39). -/
def RANK_THRESHOLDS : List (ℤ × String) :=
  [(2999, "ultra"), (2900, "grand-master"), (2666, "super-master"),
   (2468, "master"), (2222, "diamond"), (1650, "emerald"), (1234, "jade"),
   (850, "plat"), (450, "gold"), (250, "silver"), (200, "copper"),
   (150, "bronze"), (125, "steel"), (99, "iron")]

/-- Hidden-rank sentinel (source line 42). -/
def HIDDEN_RANK : String := "lz"

/-- Special "importal" sentinel (source line 43). -/
def SPECIAL_IM : String := "im"

/-- The key-value pairs of the RANK_ORDER dict (source lines 46-63). -/
def RANK_ORDER_ENTRIES : List (String × ℤ) :=
  [("iron", 0), ("steel", 1), ("bronze", 2), ("copper", 3), ("silver", 4),
   ("gold", 5), ("plat", 6), ("jade", 7), ("emerald", 8), ("diamond", 9),
   ("master", 10), ("super-master", 11), ("grand-master", 12), ("ultra", 13),
   (HIDDEN_RANK, 13), (SPECIAL_IM, 13)]

/-- The RANK_ORDER dict (source lines 46-63) as a partial lookup: `none`
models a key absent from the Python dict. -/
def RANK_ORDER (r : String) : Option ℤ :=
  (RANK_ORDER_ENTRIES.find? fun p => p.1 == r).map Prod.snd

/-- Python `RANK_ORDER.get(r, d)`. -/
def rankOrderGet (r : String) (d : ℤ) : ℤ := (RANK_ORDER r).getD d

/-- Tier order used when comparing an existing tier during recomputation:
the source compares against `RANK_ORDER.get(current, 1)` (line 122). -/
def rankMeasure (r : String) : ℤ := rankOrderGet r 1

/-- One player record (one value of the `players` dict, source lines 184-194).
-/
structure PlayerRecord where
  display : String
  offense : ℤ
  defense : ℤ
  played : ℤ
  wins : ℤ
  avg : ℤ
  rank_d : String
  rank_o : String
  rank_a : String
deriving DecidableEq, Repr

/-- The global `players` dict (source line 85) as an explicit value. -/
abbrev Registry := String → Option PlayerRecord

/-- The empty registry. -/
def emptyReg : Registry := fun _ => none

/-- `canonicalize` (source lines 87-88): lowercase and keep alphanumeric
characters (Python's `str.lower` maps character by character). -/
def canonicalize (name : String) : String :=
  String.mk ((name.data.map Char.toLower).filter fun c => c.isAlphanum)

/-- Does the character list `s` start with `pat`? -/
def charsStart : List Char → List Char → Bool
  | [], _ => true
  | _ :: _, [] => false
  | p :: ps, c :: cs => p == c && charsStart ps cs

/-- Does `pat` occur as a contiguous sublist of `s`? (Python's `in` on
strings.) -/
def charsHaveSub (pat : List Char) : List Char → Bool
  | [] => pat == []
  | c :: rest => charsStart pat (c :: rest) || charsHaveSub pat rest

/-- Python's `"zhong" in key` membership test (source line 195). -/
def containsZhong (key : String) : Bool :=
  charsHaveSub ("zhong".data) key.data

/-- `get_computed_rank`'s scan over a threshold list (source lines 103-107):
first rank whose threshold is `≤` the score, default iron. -/
def get_computed_rank_aux : List (ℤ × String) → ℤ → String
  | [], _ => "iron"
  | (threshold, rank) :: rest, score =>
      if score ≥ threshold then rank else get_computed_rank_aux rest score

/-- `get_computed_rank` (source lines 103-107). -/
def get_computed_rank (score : ℤ) : String :=
  get_computed_rank_aux RANK_THRESHOLDS score

/-- Python's builtin `round` on an exact rational: round half to even. -/
def pyroundQ (q : ℚ) : ℤ :=
  if q - ⌊q⌋ = 1 / 2 then (if Even ⌊q⌋ then ⌊q⌋ else ⌊q⌋ + 1) else round q

/-- One field update of `update_player_ranks` (source lines 118-125):
sentinels are left untouched, otherwise the computed rank replaces the
current one only when strictly higher in `RANK_ORDER` (current defaulting
to order 1 when unknown). -/
def update_rank_field (current new_val : String) : String :=
  if current = HIDDEN_RANK ∨ current = SPECIAL_IM then current
  else if rankOrderGet new_val 0 > rankOrderGet current 1 then new_val
  else current

/-- `update_player_ranks` (source lines 113-125) on one record. -/
def update_player_ranks (rec : PlayerRecord) : PlayerRecord :=
  let new_o := get_computed_rank rec.offense
  let new_d := get_computed_rank rec.defense
  let new_a := get_computed_rank rec.avg
  { rec with
    rank_o := update_rank_field rec.rank_o new_o,
    rank_d := update_rank_field rec.rank_d new_d,
    rank_a := update_rank_field rec.rank_a new_a }

/-- `choose_rank` inside `merge_record` (source lines 166-167): keep the
higher of the two ranks, both defaulting to order 0 when unknown. -/
def choose_rank (old_rank new_rank : String) : String :=
  if rankOrderGet new_rank 0 > rankOrderGet old_rank 0 then new_rank
  else old_rank

/-- Python's `r if r else computed` on an optional rank token: `None` and the
empty string both fall back to the computed rank. -/
def or_computed (r : Option String) (computed : String) : String :=
  match r with
  | none => computed
  | some s => if s = "" then computed else s

/-- `merge_record` (source lines 156-179) acting on the destination record
`old`; the caller stores the result back under the destination key. -/
def merge_record (old : PlayerRecord) (new_display : String)
    (off deff played wins : ℤ) (rank_d rank_o rank_a : Option String) :
    PlayerRecord :=
  let total_played := old.played + played
  let new_off : ℤ :=
    if total_played > 0 then
      pyroundQ ((((old.offense * old.played + off * played : ℤ) : ℚ)) / ((total_played : ℤ) : ℚ))
    else off
  let new_def : ℤ :=
    if total_played > 0 then
      pyroundQ ((((old.defense * old.played + deff * played : ℤ) : ℚ)) / ((total_played : ℤ) : ℚ))
    else deff
  let new_wins := old.wins + wins
  { display := old.display
    offense := new_off
    defense := new_def
    played := total_played
    wins := new_wins
    avg := pyroundQ ((((new_off + new_def : ℤ) : ℚ)) / 2)
    rank_d := choose_rank old.rank_d (or_computed rank_d (get_computed_rank new_def))
    rank_o := choose_rank old.rank_o (or_computed rank_o (get_computed_rank new_off))
    rank_a := choose_rank old.rank_a (or_computed rank_a
      (get_computed_rank (pyroundQ ((((new_off + new_def : ℤ) : ℚ)) / 2)))) }

/-- `get_or_create_player` (source lines 181-199): returns the (possibly
extended) registry together with the record for the name. -/
def get_or_create_player (reg : Registry) (name : String) :
    Registry × PlayerRecord :=
  let key := canonicalize name
  match reg key with
  | some rec => (reg, rec)
  | none =>
      let base : PlayerRecord :=
        { display := name
          offense := RATING_MIN
          defense := RATING_MIN
          played := 0
          wins := 0
          avg := RATING_MIN
          rank_d := get_computed_rank RATING_MIN
          rank_o := get_computed_rank RATING_MIN
          rank_a := get_computed_rank RATING_MIN }
      let created :=
        if containsZhong key then
          { base with rank_d := HIDDEN_RANK, rank_o := HIDDEN_RANK,
                      rank_a := HIDDEN_RANK }
        else base
      (fun k => if k = key then some created else reg k, created)

/-- The creation pass at the start of `process_game` (source lines 328-329).
-/
def create_players (reg : Registry) (names : List String) : Registry :=
  names.foldl (fun r n => (get_or_create_player r n).1) reg

/-- One parsed line of `load_data` (source lines 212-243) applied to the
registry: `avgOpt` is the optional sixth field, the three optional rank
tokens follow. Malformed-line skipping and field tokenizing are the
excluded glue; this models what happens once the required integer fields
parsed. -/
def load_line (reg : Registry) (disp : String)
    (off deff played win_rate : ℤ) (avgOpt : Option ℤ)
    (rank_d rank_o rank_a : Option String) : Registry :=
  let canon := canonicalize disp
  let wins : ℤ :=
    if played > 0 then pyroundQ ((((win_rate : ℤ) : ℚ)) / 100 * ((played : ℤ) : ℚ))
    else 0
  let avg : ℤ := avgOpt.getD (pyroundQ ((((off + deff : ℤ) : ℚ)) / 2))
  match reg canon with
  | some old =>
      fun k => if k = canon then
        some (merge_record old disp off deff played wins rank_d rank_o rank_a)
      else reg k
  | none =>
      let base : PlayerRecord :=
        { display := disp
          offense := off
          defense := deff
          played := played
          wins := wins
          avg := avg
          rank_d := or_computed rank_d (get_computed_rank deff)
          rank_o := or_computed rank_o (get_computed_rank off)
          rank_a := or_computed rank_a (get_computed_rank avg) }
      let created :=
        if containsZhong canon then
          { base with rank_d := HIDDEN_RANK, rank_o := HIDDEN_RANK,
                      rank_a := HIDDEN_RANK }
        else base
      fun k => if k = canon then some created else reg k

/-- The per-record normalization `save_data` performs before writing
(source lines 246-248): recompute the average, then recompute ranks. -/
def save_data_update (reg : Registry) : Registry :=
  fun k => (reg k).map fun rec =>
    update_player_ranks
      { rec with avg := pyroundQ ((((rec.offense + rec.defense : ℤ) : ℚ)) / 2) }

/-- The two rating roles a participant can play in a match; the source uses
the dict keys "offense" / "defense". -/
inductive Role where
  | offense
  | defense
deriving DecidableEq, Repr

/-- Read the role's rating field. -/
def Role.get : Role → PlayerRecord → ℤ
  | .offense, p => p.offense
  | .defense, p => p.defense

/-- Write the role's rating field. -/
def Role.set : Role → PlayerRecord → ℤ → PlayerRecord
  | .offense, p, v => { p with offense := v }
  | .defense, p, v => { p with defense := v }

/-- `get_average_rating` inside `process_game` (source lines 331-335):
`none` for an empty name list, else the mean of the role's ratings. -/
def get_average_rating (reg : Registry) (names : List String) (role : Role) :
    Option ℚ :=
  if names = [] then none
  else
    some (((names.map fun n =>
      (((role.get (get_or_create_player reg n).2 : ℤ) : ℚ))).sum) /
      ((names.length : ℕ) : ℚ))

/-- Outcome of `process_combine_command` (source lines 436-472). -/
inductive CombineResult where
  | srcNotFound (reg : Registry)
  | destNotFound (reg : Registry)
  | combined (reg : Registry)

/-- `process_combine_command` (source lines 436-472) at the structured
boundary (the two names already extracted from the command text): merge the
source record into the destination, then delete the source key. -/
def process_combine_command (reg : Registry) (src_name dest_name : String) :
    CombineResult :=
  let src_key := canonicalize src_name
  let dest_key := canonicalize dest_name
  match reg src_key with
  | none => .srcNotFound reg
  | some src =>
      match reg dest_key with
      | none => .destNotFound reg
      | some dest =>
          let merged := merge_record dest dest.display src.offense src.defense
            src.played src.wins none none none
          let reg1 : Registry :=
            fun k => if k = dest_key then some merged else reg k
          .combined (fun k => if k = src_key then none else reg1 k)

open Classical in
/-- Python's builtin `round` on a real argument: round half to even. -/
noncomputable def pyround (x : ℝ) : ℤ :=
  if x - ⌊x⌋ = 1 / 2 then (if Even ⌊x⌋ then ⌊x⌋ else ⌊x⌋ + 1) else round x

/-- `adjust_opponent_rating` (source lines 494-496): the identity on the
opposition rating. -/
def adjust_opponent_rating (opposition_rating curr_rating : ℝ) : ℝ :=
  opposition_rating

/-- Fibonacci-style rating-protection table (source line 499); `none` models
the final `float('inf')` threshold. -/
def RATING_PROTECTION_THRESHOLDS : List (Option ℤ × ℤ) :=
  [(some 150, 34), (some 200, 21), (some 400, 13), (some 850, 8),
   (some 1234, 5), (some 1650, 3), (some 2222, 2), (some 2468, 1),
   (some 2666, 0), (some 2900, -1), (none, -2)]

/-- The protection loop of `update_rating` (source lines 506-510):
`adjustment` defaults to 0 and becomes the entry of the first band whose
threshold is at least the current rating. -/
def find_adjustment : List (Option ℤ × ℤ) → ℤ → ℤ
  | [], _ => 0
  | (t, adj) :: rest, curr =>
      match t with
      | none => adj
      | some threshold =>
          if curr ≤ threshold then adj else find_adjustment rest curr

/-- The expected score of `update_rating` (source line 502). -/
noncomputable def expected_score (curr_rating : ℤ) (opposition_rating : ℝ) :
    ℝ :=
  1 / (1 + (10 : ℝ) ^
    ((adjust_opponent_rating opposition_rating ((curr_rating : ℤ) : ℝ) -
      ((curr_rating : ℤ) : ℝ)) / 400))

/-- The value of the local variable `change` of `update_rating` just before
the floor test on line 520: raw ELO delta, plus protection when the score is
0 or 1, capped at 0 on a loss (source lines 502-517). -/
noncomputable def adjusted_change (curr_rating score : ℤ)
    (opposition_rating multiplier : ℝ) : ℝ :=
  let expected := expected_score curr_rating opposition_rating
  let change := multiplier * ((K_FACTOR : ℤ) : ℝ) * (((score : ℤ) : ℝ) - expected)
  let adjustment := find_adjustment RATING_PROTECTION_THRESHOLDS curr_rating
  if score = 0 ∨ score = 1 then
    (if score = 0 then min (change + ((adjustment : ℤ) : ℝ)) 0
     else change + ((adjustment : ℤ) : ℝ))
  else change

open Classical in
/-- `update_rating` (source lines 501-528): returns the new (clamped,
rounded) rating and the reported delta. -/
noncomputable def update_rating (curr_rating score : ℤ)
    (opposition_rating multiplier : ℝ) : ℤ × ℝ :=
  let change := adjusted_change curr_rating score opposition_rating multiplier
  if change < 0 ∧ curr_rating ≤ RATING_MIN then (RATING_MIN, 0)
  else
    (max (min (pyround (((curr_rating : ℤ) : ℝ) + change)) RATING_MAX)
      RATING_MIN, change)

/-- `calculate_expected_win_rate` (source lines 297-299). -/
noncomputable def calculate_expected_win_rate
    (player_rating opponent_rating : ℝ) : ℝ :=
  (1 / (1 + (10 : ℝ) ^ ((opponent_rating - player_rating) / 400))) * 100

/-- The print-only expected-win-rate pass of `process_game` over one roster
(source lines 346-370): undefined (`none`) as soon as a named player needs an
absent opponent reference, exactly as the Python code raises on `None`
arithmetic. -/
noncomputable def expected_rates (reg : Registry) (names : List String)
    (role : Role) (oppRef : Option ℚ) : Option (List ℝ) :=
  names.mapM fun n =>
    oppRef.map fun o =>
      calculate_expected_win_rate
        (((role.get (get_or_create_player reg n).2 : ℤ) : ℝ)) ((o : ℚ) : ℝ)

/-- One rating-update loop of `process_game` (source lines 381-409) over one
roster: set the role's rating to the `update_rating` result, increment games
played, and add `winInc` (1 for the winning team, 0 for the losing team) to
the win counter. `none` when a named player needs an absent opponent
reference. -/
noncomputable def apply_update_list (reg : Registry) (names : List String)
    (role : Role) (score : ℤ) (oppRef : Option ℚ) (multiplier : ℚ)
    (winInc : ℤ) : Option Registry :=
  names.foldlM (fun r n => do
    let o ← oppRef
    let (r1, p) := get_or_create_player r n
    let upd := update_rating (role.get p) score ((o : ℚ) : ℝ)
      ((multiplier : ℚ) : ℝ)
    let p1 := role.set p upd.1
    let p2 := { p1 with played := p1.played + 1, wins := p1.wins + winInc }
    pure (fun k => if k = canonicalize n then some p2 else r1 k)) reg

/-- Outcome of one `process_game` call. -/
inductive GameResult where
  | rejected (reg : Registry)
  | crashed
  | ok (reg : Registry)

open Classical in
/-- `process_game` (source lines 311-411) at the structured boundary: the
four parsed rosters and the win-type token. An unknown win type is rejected
before any state change (source lines 319-321); `crashed` models the Python
`TypeError` raised when an opponent reference is `None` (which, in the
source, surfaces in the print-only expected-rate block, lines 346-370,
under exactly the condition that makes the update loops undefined); on
success the final `save_data()` re-normalization (lines 245-248) is applied.
-/
noncomputable def process_game (reg : Registry)
    (team1_off team1_def team2_off team2_def : List String)
    (win_type : String) : GameResult :=
  match WIN_TYPE_MULTIPLIERS win_type with
  | none => .rejected reg
  | some base_multiplier =>
      let reg1 := create_players reg
        (team1_off ++ team1_def ++ team2_off ++ team2_def)
      let opp_for_team1 :=
        if team2_def ≠ [] then get_average_rating reg1 team2_def .defense
        else get_average_rating reg1 team2_off .offense
      let opp_off_team1 :=
        if team2_off ≠ [] then get_average_rating reg1 team2_off .offense
        else get_average_rating reg1 team2_def .defense
      let opp_for_team2 :=
        if team1_def ≠ [] then get_average_rating reg1 team1_def .defense
        else get_average_rating reg1 team1_off .offense
      let opp_off_team2 :=
        if team1_off ≠ [] then get_average_rating reg1 team1_off .offense
        else get_average_rating reg1 team1_def .defense
      match apply_update_list reg1 team1_off .offense 1 opp_for_team1
        base_multiplier 1 with
      | none => .crashed
      | some r1 =>
      match apply_update_list r1 team1_def .defense 1 opp_off_team1
        base_multiplier 1 with
      | none => .crashed
      | some r2 =>
      match apply_update_list r2 team2_off .offense 0 opp_for_team2
        base_multiplier 0 with
      | none => .crashed
      | some r3 =>
      match apply_update_list r3 team2_def .defense 0 opp_off_team2
        base_multiplier 0 with
      | none => .crashed
      | some r4 => .ok (save_data_update r4)

/-- The record counter invariant of the data model: non-negative counters
with wins bounded by games played. -/
def RecInv (rec : PlayerRecord) : Prop :=
  0 ≤ rec.played ∧ 0 ≤ rec.wins ∧ rec.wins ≤ rec.played

instance : DecidablePred RecInv := fun rec => by
  unfold RecInv; infer_instance

/-- The registry-wide counter invariant. -/
def RegInv (reg : Registry) : Prop :=
  ∀ k rec, reg k = some rec → RecInv rec

/-! ## Supporting lemmas for the rating engine -/

lemma pyround_intCast (n : ℤ) : pyround ((n : ℤ) : ℝ) = n := by
  unfold pyround
  rw [Int.floor_intCast, if_neg (by norm_num), round_intCast]

lemma expected_score_self (curr : ℤ) :
    expected_score curr (((curr : ℤ) : ℝ)) = 1 / 2 := by
  unfold expected_score adjust_opponent_rating
  rw [sub_self, zero_div, Real.rpow_zero]
  norm_num

lemma adjusted_change_loss_nonpos (curr : ℤ) (opp mult : ℝ) :
    adjusted_change curr 0 opp mult ≤ 0 := by
  simp only [adjusted_change]
  norm_num

/-- C1: for every rating-update call (any current rating, any score, any
opponent reference rating, any multiplier) the returned new rating lies
between RATING_MIN and RATING_MAX. -/
theorem update_rating_bounds (curr score : ℤ) (opp mult : ℝ) :
    RATING_MIN ≤ (update_rating curr score opp mult).1 ∧
    (update_rating curr score opp mult).1 ≤ RATING_MAX := by
  simp only [update_rating]
  split_ifs with h
  · exact ⟨le_rfl, by norm_num [RATING_MIN, RATING_MAX]⟩
  · refine ⟨le_max_right _ _, max_le (min_le_right _ _) ?_⟩
    norm_num [RATING_MIN, RATING_MAX]

/-- C4: with outcome loss (score 0), the delta reported by the rating update
is never positive, for any current rating, opponent reference rating and
multiplier. -/
theorem update_rating_loss_delta_nonpos (curr : ℤ) (opp mult : ℝ) :
    (update_rating curr 0 opp mult).2 ≤ 0 := by
  have h := adjusted_change_loss_nonpos curr opp mult
  simp only [update_rating]
  split_ifs with hc
  · norm_num
  · exact h

/-- C5: if the current rating is RATING_MIN and the protection-adjusted
delta is negative, the rating update returns exactly (RATING_MIN, 0). -/
theorem update_rating_floor (score : ℤ) (opp mult : ℝ)
    (h : adjusted_change RATING_MIN score opp mult < 0) :
    update_rating RATING_MIN score opp mult = (RATING_MIN, 0) := by
  simp only [update_rating]
  split_ifs with hc
  · rfl
  · exact absurd ⟨h, le_rfl⟩ hc

lemma adjusted_change_at_floor_example :
    adjusted_change RATING_MIN 0 100 3 = -14 := by
  have hexp : expected_score RATING_MIN (100 : ℝ) = 1 / 2 := by
    have h := expected_score_self RATING_MIN
    norm_num [RATING_MIN] at h ⊢
    exact h
  simp only [adjusted_change, hexp]
  norm_num [K_FACTOR, find_adjustment, RATING_PROTECTION_THRESHOLDS,
    RATING_MIN, min_def]

/-- Witness for C5 at a concrete input: current rating 100, a loss against
an equally rated opponent with multiplier 3 has adjusted delta -14 < 0, and
the update returns (100, 0). -/
theorem update_rating_floor_witness :
    adjusted_change RATING_MIN 0 100 3 < 0 ∧
    update_rating RATING_MIN 0 100 3 = (RATING_MIN, 0) := by
  have hneg : adjusted_change RATING_MIN 0 100 3 < 0 := by
    rw [adjusted_change_at_floor_example]; norm_num
  exact ⟨hneg, update_rating_floor 0 100 3 hneg⟩

lemma adjusted_change_claim2_input : adjusted_change 100 1 100 1 = 50 := by
  have hexp : expected_score 100 (100 : ℝ) = 1 / 2 := by
    have h := expected_score_self 100
    norm_num at h ⊢
    exact h
  simp only [adjusted_change, hexp]
  norm_num [K_FACTOR, find_adjustment, RATING_PROTECTION_THRESHOLDS]

lemma update_rating_claim2_input : update_rating 100 1 100 1 = (150, 50) := by
  rw [update_rating]
  rw [adjusted_change_claim2_input]
  rw [if_neg (by norm_num [RATING_MIN])]
  have h150 : (((100 : ℤ) : ℝ)) + 50 = (((150 : ℤ) : ℝ)) := by push_cast; norm_num
  rw [h150, pyround_intCast]
  norm_num [RATING_MIN, RATING_MAX]

/-- C2 as stated is false: with multiplier 1.0, current rating 100, opponent
100 and a win, the update does not return new rating 137 with delta 37. -/
theorem update_rating_claim2_counterexample :
    update_rating 100 1 100 1 ≠ ((137 : ℤ), (37 : ℝ)) := by
  rw [update_rating_claim2_input]
  intro h
  have := congrArg Prod.fst h
  norm_num at this

/-- C2 amended: with multiplier 1.0, K 32, current rating 100, opponent 100
and outcome win, the expected score is 0.5, the raw delta 16, the protection
adjustment +34 (the first band, threshold 150, applies to rating 100), the
total delta 50, and the new rating 150. -/
theorem update_rating_claim2_amended :
    expected_score 100 (100 : ℝ) = 1 / 2 ∧
    (1 : ℝ) * ((K_FACTOR : ℤ) : ℝ) * (1 - expected_score 100 (100 : ℝ)) = 16 ∧
    find_adjustment RATING_PROTECTION_THRESHOLDS 100 = 34 ∧
    update_rating 100 1 100 1 = (150, 50) := by
  have hexp : expected_score 100 (100 : ℝ) = 1 / 2 := by
    have h := expected_score_self 100
    norm_num at h ⊢
    exact h
  refine ⟨hexp, ?_, ?_, update_rating_claim2_input⟩
  · rw [hexp]; norm_num [K_FACTOR]
  · decide

/-! ## Supporting lemmas for the rank engine -/

/-- One entry of a player's lifetime of rank recomputations: the match
processor first overwrites the numeric ratings, then `update_player_ranks`
recomputes the tiers from them (source lines 381-411 followed by 246-248).
The triple carries the offense, defense and average ratings in force at
that recomputation. -/
def recompute_after (rec : PlayerRecord) (t : ℤ × ℤ × ℤ) : PlayerRecord :=
  update_player_ranks
    { rec with offense := t.1, defense := t.2.1, avg := t.2.2 }

lemma RANK_ORDER_nonneg (r : String) (v : ℤ) (h : RANK_ORDER r = some v) :
    0 ≤ v := by
  unfold RANK_ORDER at h
  cases hf : RANK_ORDER_ENTRIES.find? fun p => p.1 == r with
  | none => rw [hf] at h; exact absurd h (by simp)
  | some p =>
      rw [hf] at h
      have hmem := List.mem_of_find?_eq_some hf
      have hall : ∀ q ∈ RANK_ORDER_ENTRIES, 0 ≤ q.2 := by decide
      have hv : p.2 = v := by
        simpa using h
      rw [← hv]
      exact hall p hmem

lemma rankMeasure_nonneg (r : String) : 0 ≤ rankMeasure r := by
  unfold rankMeasure rankOrderGet
  cases h : RANK_ORDER r with
  | none => decide
  | some v => exact RANK_ORDER_nonneg r v h

lemma update_rank_field_measure_le (cur nv : String) :
    rankMeasure cur ≤ rankMeasure (update_rank_field cur nv) := by
  unfold update_rank_field
  split_ifs with hs hgt
  · exact le_rfl
  · cases hnv : RANK_ORDER nv with
    | none =>
        exfalso
        have h0 : rankOrderGet nv 0 = 0 := by unfold rankOrderGet; rw [hnv]; rfl
        rw [h0] at hgt
        exact absurd (lt_of_le_of_lt (rankMeasure_nonneg cur) hgt)
          (lt_irrefl 0)
    | some v =>
        have h0 : rankOrderGet nv 0 = v := by unfold rankOrderGet; rw [hnv]; rfl
        have h1 : rankMeasure nv = v := by
          unfold rankMeasure rankOrderGet; rw [hnv]; rfl
        rw [h1]
        rw [h0] at hgt
        exact le_of_lt hgt
  · exact le_rfl

lemma update_rank_field_sentinel (cur nv : String)
    (h : cur = HIDDEN_RANK ∨ cur = SPECIAL_IM) :
    update_rank_field cur nv = cur := by
  unfold update_rank_field
  rw [if_pos h]

lemma recompute_after_measure_le (rec : PlayerRecord) (t : ℤ × ℤ × ℤ) :
    rankMeasure rec.rank_o ≤ rankMeasure (recompute_after rec t).rank_o ∧
    rankMeasure rec.rank_d ≤ rankMeasure (recompute_after rec t).rank_d ∧
    rankMeasure rec.rank_a ≤ rankMeasure (recompute_after rec t).rank_a := by
  unfold recompute_after update_player_ranks
  exact ⟨update_rank_field_measure_le _ _, update_rank_field_measure_le _ _,
    update_rank_field_measure_le _ _⟩

lemma recompute_after_sentinel (rec : PlayerRecord) (t : ℤ × ℤ × ℤ) :
    ((rec.rank_o = HIDDEN_RANK ∨ rec.rank_o = SPECIAL_IM) →
      (recompute_after rec t).rank_o = rec.rank_o) ∧
    ((rec.rank_d = HIDDEN_RANK ∨ rec.rank_d = SPECIAL_IM) →
      (recompute_after rec t).rank_d = rec.rank_d) ∧
    ((rec.rank_a = HIDDEN_RANK ∨ rec.rank_a = SPECIAL_IM) →
      (recompute_after rec t).rank_a = rec.rank_a) := by
  unfold recompute_after update_player_ranks
  exact ⟨fun h => update_rank_field_sentinel _ _ h,
    fun h => update_rank_field_sentinel _ _ h,
    fun h => update_rank_field_sentinel _ _ h⟩

/-- C3: over any sequence of rank recomputations (each with whatever ratings
are in force at that time), none of the three rank categories ever
decreases in tier order, and a category holding one of the two sentinels is
left unchanged by every recomputation. -/
theorem rank_recompute_monotone (rec : PlayerRecord)
    (ts : List (ℤ × ℤ × ℤ)) :
    (rankMeasure rec.rank_o ≤
        rankMeasure (ts.foldl recompute_after rec).rank_o ∧
      rankMeasure rec.rank_d ≤
        rankMeasure (ts.foldl recompute_after rec).rank_d ∧
      rankMeasure rec.rank_a ≤
        rankMeasure (ts.foldl recompute_after rec).rank_a) ∧
    ((rec.rank_o = HIDDEN_RANK ∨ rec.rank_o = SPECIAL_IM) →
      (ts.foldl recompute_after rec).rank_o = rec.rank_o) ∧
    ((rec.rank_d = HIDDEN_RANK ∨ rec.rank_d = SPECIAL_IM) →
      (ts.foldl recompute_after rec).rank_d = rec.rank_d) ∧
    ((rec.rank_a = HIDDEN_RANK ∨ rec.rank_a = SPECIAL_IM) →
      (ts.foldl recompute_after rec).rank_a = rec.rank_a) := by
  induction ts generalizing rec with
  | nil => exact ⟨⟨le_rfl, le_rfl, le_rfl⟩, fun _ => rfl, fun _ => rfl,
      fun _ => rfl⟩
  | cons t ts ih =>
      rw [List.foldl_cons]
      obtain ⟨⟨imo, imd, ima⟩, iso, isd, isa⟩ := ih (recompute_after rec t)
      obtain ⟨mo, md, ma⟩ := recompute_after_measure_le rec t
      obtain ⟨so, sd, sa⟩ := recompute_after_sentinel rec t
      refine ⟨⟨le_trans mo imo, le_trans md imd, le_trans ma ima⟩,
        fun h => ?_, fun h => ?_, fun h => ?_⟩
      · rw [iso (by rw [so h]; exact h), so h]
      · rw [isd (by rw [sd h]; exact h), sd h]
      · rw [isa (by rw [sa h]; exact h), sa h]

/-- Witness for C3 at a concrete record and sequence: the iron offense tier
does not regress over two recomputations, and hidden / special sentinel
tiers in the defense and average categories are unchanged. -/
theorem rank_recompute_monotone_witness :
    (rankMeasure (PlayerRecord.mk ("Ann") 100 100 0 0 100 ("lz") ("iron")
        ("im")).rank_o ≤
      rankMeasure (([(1700, 400, 900), (2500, 2500, 2500)] :
          List (ℤ × ℤ × ℤ)).foldl recompute_after
        (PlayerRecord.mk ("Ann") 100 100 0 0 100 ("lz") ("iron")
          ("im"))).rank_o) ∧
    (([(1700, 400, 900), (2500, 2500, 2500)] :
        List (ℤ × ℤ × ℤ)).foldl recompute_after
      (PlayerRecord.mk ("Ann") 100 100 0 0 100 ("lz") ("iron")
        ("im"))).rank_d = ("lz") ∧
    (([(1700, 400, 900), (2500, 2500, 2500)] :
        List (ℤ × ℤ × ℤ)).foldl recompute_after
      (PlayerRecord.mk ("Ann") 100 100 0 0 100 ("lz") ("iron")
        ("im"))).rank_a = ("im") := by
  have h := rank_recompute_monotone
    (PlayerRecord.mk ("Ann") 100 100 0 0 100 ("lz") ("iron") ("im"))
    ([(1700, 400, 900), (2500, 2500, 2500)])
  exact ⟨h.1.1, h.2.2.1 (Or.inl rfl), h.2.2.2 (Or.inr rfl)⟩

/-! ## Record merging -/

/-- The destination record of the spec's merge example: `johnsmith` with 10
games, 5 wins, ratings 200/200. -/
def johnsmithOld : PlayerRecord :=
  { display := "johnsmith", offense := 200, defense := 200, played := 10,
    wins := 5, avg := 200, rank_d := "copper", rank_o := "copper",
    rank_a := "copper" }

lemma pyroundQ_eq_of_floor (q : ℚ) (n m : ℤ) (hn : ⌊q⌋ = n)
    (hne : q - ((n : ℤ) : ℚ) ≠ 1 / 2) (hm : ⌊q + 1 / 2⌋ = m) :
    pyroundQ q = m := by
  unfold pyroundQ
  rw [hn, if_neg hne, round_eq, hm]

lemma pyroundQ_700_3 : pyroundQ ((700 : ℚ) / 3) = 233 := by
  refine pyroundQ_eq_of_floor _ 233 233 ?_ (by norm_num) ?_
  · rw [Int.floor_eq_iff]
    norm_num
  · rw [Int.floor_eq_iff]
    norm_num

lemma merge_record_general (old : PlayerRecord) (disp : String)
    (off deff played wins : ℤ) (rd ro ra : Option String) :
    (merge_record old disp off deff played wins rd ro ra).played =
        old.played + played ∧
    (merge_record old disp off deff played wins rd ro ra).wins =
        old.wins + wins ∧
    (old.played + played > 0 →
      (merge_record old disp off deff played wins rd ro ra).offense =
          pyroundQ ((((old.offense * old.played + off * played : ℤ) : ℚ)) /
            (((old.played + played : ℤ)) : ℚ)) ∧
        (merge_record old disp off deff played wins rd ro ra).defense =
          pyroundQ ((((old.defense * old.played + deff * played : ℤ) : ℚ)) /
            (((old.played + played : ℤ)) : ℚ))) ∧
    (old.played + played = 0 →
      (merge_record old disp off deff played wins rd ro ra).offense = off ∧
      (merge_record old disp off deff played wins rd ro ra).defense =
        deff) := by
  refine ⟨rfl, rfl, fun hpos => ?_, fun hzero => ?_⟩
  · simp only [merge_record]
    rw [if_pos hpos, if_pos hpos]
    exact ⟨rfl, rfl⟩
  · simp only [merge_record]
    rw [if_neg (by omega), if_neg (by omega)]
    exact ⟨rfl, rfl⟩

/-- C6: merging sums the games and win counts; with positive combined games
the new ratings are the games-weighted averages rounded to nearest integer,
and with combined games 0 the source's raw ratings are kept; in particular
merging (10 games, ratings 200/200) with (5 games, ratings 300/300) gives 15
games and offense and defense round(3500/15) = 233. -/
theorem merge_record_spec :
    (∀ (old : PlayerRecord) (disp : String) (off deff played wins : ℤ)
        (rd ro ra : Option String),
      (merge_record old disp off deff played wins rd ro ra).played =
          old.played + played ∧
      (merge_record old disp off deff played wins rd ro ra).wins =
          old.wins + wins ∧
      (old.played + played > 0 →
        (merge_record old disp off deff played wins rd ro ra).offense =
            pyroundQ ((((old.offense * old.played + off * played : ℤ) : ℚ)) /
              (((old.played + played : ℤ)) : ℚ)) ∧
          (merge_record old disp off deff played wins rd ro ra).defense =
            pyroundQ ((((old.defense * old.played + deff * played : ℤ) : ℚ)) /
              (((old.played + played : ℤ)) : ℚ))) ∧
      (old.played + played = 0 →
        (merge_record old disp off deff played wins rd ro ra).offense = off ∧
        (merge_record old disp off deff played wins rd ro ra).defense =
          deff)) ∧
    (merge_record johnsmithOld ("src") 300 300 5 0 none none none).played =
        15 ∧
    (merge_record johnsmithOld ("src") 300 300 5 0 none none none).offense =
        233 ∧
    (merge_record johnsmithOld ("src") 300 300 5 0 none none none).defense =
        233 := by
  have hgen := merge_record_general johnsmithOld ("src") 300 300 5 0 none
    none none
  have hpos : johnsmithOld.played + 5 > 0 := by norm_num [johnsmithOld]
  have hq : ((((johnsmithOld.offense * johnsmithOld.played + 300 * 5 : ℤ) :
      ℚ)) / (((johnsmithOld.played + 5 : ℤ)) : ℚ)) = (700 : ℚ) / 3 := by
    norm_num [johnsmithOld]
  have hq2 : ((((johnsmithOld.defense * johnsmithOld.played + 300 * 5 : ℤ) :
      ℚ)) / (((johnsmithOld.played + 5 : ℤ)) : ℚ)) = (700 : ℚ) / 3 := by
    norm_num [johnsmithOld]
  refine ⟨merge_record_general, ?_, ?_, ?_⟩
  · rw [hgen.1]; norm_num [johnsmithOld]
  · rw [(hgen.2.2.1 hpos).1, hq, pyroundQ_700_3]
  · rw [(hgen.2.2.1 hpos).2, hq2, pyroundQ_700_3]

/-- Witness for C6's conditional clauses at the example input: combined
games 15 > 0, so the offense is the rounded weighted average. -/
theorem merge_record_spec_witness :
    (merge_record johnsmithOld ("src") 300 300 5 0 none none none).offense =
      pyroundQ ((((johnsmithOld.offense * johnsmithOld.played + 300 * 5 : ℤ) :
          ℚ)) / (((johnsmithOld.played + 5 : ℤ)) : ℚ)) :=
  ((merge_record_spec.1 johnsmithOld ("src") 300 300 5 0 none none
    none).2.2.1 (by decide)).1

/-! ## Consolidation (combine command) -/

/-- C9: when the source and destination names of a combine command
canonicalize to the same existing key, the command succeeds and the key is
gone from the resulting registry (the self-merge doubles the games and win
counts, and the deletion then removes the record entirely). -/
theorem combine_same_key (reg : Registry) (src_name dest_name : String)
    (rec : PlayerRecord)
    (hkey : canonicalize src_name = canonicalize dest_name)
    (hmem : reg (canonicalize src_name) = some rec) :
    (∃ reg', process_combine_command reg src_name dest_name =
        .combined reg' ∧ reg' (canonicalize src_name) = none) ∧
    (merge_record rec rec.display rec.offense rec.defense rec.played rec.wins
        none none none).played = 2 * rec.played ∧
    (merge_record rec rec.display rec.offense rec.defense rec.played rec.wins
        none none none).wins = 2 * rec.wins := by
  have hdest : reg (canonicalize dest_name) = some rec := by
    rw [← hkey]; exact hmem
  refine ⟨?_, ?_, ?_⟩
  · simp only [process_combine_command, hmem, hdest]
    exact ⟨_, rfl, by simp⟩
  · simp only [merge_record]
    omega
  · simp only [merge_record]
    omega

/-- A concrete record for this claim's witness. -/
def bobRec : PlayerRecord :=
  { display := "Bob", offense := 300, defense := 250, played := 4, wins := 2,
    avg := 275, rank_d := "silver", rank_o := "silver", rank_a := "silver" }

/-- A registry containing only the key bob. -/
def regBob : Registry := fun k => if k = ("bob") then some bobRec else none

/-- Witness for C9 at a concrete input: combining bob into bob removes the
key, and the intermediate self-merge doubles the counters of bob's record.
-/
theorem combine_same_key_witness :
    (∃ reg', process_combine_command regBob ("bob") ("bob") =
        .combined reg' ∧ reg' (canonicalize ("bob")) = none) ∧
    (merge_record bobRec bobRec.display bobRec.offense bobRec.defense
        bobRec.played bobRec.wins none none none).played =
      2 * bobRec.played ∧
    (merge_record bobRec bobRec.display bobRec.offense bobRec.defense
        bobRec.played bobRec.wins none none none).wins = 2 * bobRec.wins :=
  combine_same_key regBob ("bob") ("bob") bobRec rfl (by decide)

/-! ## Counter invariants (C8) -/

lemma pyroundQ_nonneg (q : ℚ) (h : 0 ≤ q) : 0 ≤ pyroundQ q := by
  unfold pyroundQ
  split_ifs with h1 h2
  · exact Int.floor_nonneg.mpr h
  · have := Int.floor_nonneg.mpr h
    omega
  · rw [round_eq]
    exact Int.floor_nonneg.mpr (by linarith)

lemma pyroundQ_le (q : ℚ) (m : ℤ) (h : q ≤ ((m : ℤ) : ℚ)) :
    pyroundQ q ≤ m := by
  have hfloor : ⌊q⌋ ≤ m := (Int.floor_mono h).trans_eq (Int.floor_intCast m)
  unfold pyroundQ
  split_ifs with h1 h2
  · exact hfloor
  · have hlt : ((⌊q⌋ : ℤ) : ℚ) < ((m : ℤ) : ℚ) := by
      have hq : ((⌊q⌋ : ℤ) : ℚ) = q - 1 / 2 := by linarith
      linarith
    have : ⌊q⌋ < m := by exact_mod_cast hlt
    omega
  · rw [round_eq]
    have hmono : ⌊q + 1 / 2⌋ ≤ ⌊((m : ℤ) : ℚ) + 1 / 2⌋ :=
      Int.floor_mono (by linarith)
    have h12 : ⌊(1 / 2 : ℚ)⌋ = 0 := by
      rw [Int.floor_eq_zero_iff]
      constructor <;> norm_num
    have heq : ⌊((m : ℤ) : ℚ) + 1 / 2⌋ = m := by
      rw [show ((m : ℤ) : ℚ) + 1 / 2 = 1 / 2 + ((m : ℤ) : ℚ) from
        add_comm _ _, Int.floor_add_int, h12, zero_add]
    omega

lemma load_wins_bounds (played win_rate : ℤ) (hp : 0 ≤ played)
    (h0 : 0 ≤ win_rate) (h100 : win_rate ≤ 100) :
    0 ≤ pyroundQ ((((win_rate : ℤ) : ℚ)) / 100 * (((played : ℤ)) : ℚ)) ∧
    pyroundQ ((((win_rate : ℤ) : ℚ)) / 100 * (((played : ℤ)) : ℚ)) ≤
      played := by
  have hq0 : (0 : ℚ) ≤ ((win_rate : ℤ) : ℚ) / 100 * ((played : ℤ) : ℚ) := by
    apply mul_nonneg
    · apply div_nonneg
      · exact_mod_cast h0
      · norm_num
    · exact_mod_cast hp
  have hqle : ((win_rate : ℤ) : ℚ) / 100 * ((played : ℤ) : ℚ) ≤
      ((played : ℤ) : ℚ) := by
    have h1 : ((win_rate : ℤ) : ℚ) / 100 ≤ 1 := by
      rw [div_le_one (by norm_num)]
      exact_mod_cast h100
    calc ((win_rate : ℤ) : ℚ) / 100 * ((played : ℤ) : ℚ) ≤
        1 * ((played : ℤ) : ℚ) :=
          mul_le_mul_of_nonneg_right h1 (by exact_mod_cast hp)
      _ = ((played : ℤ) : ℚ) := one_mul _
  exact ⟨pyroundQ_nonneg _ hq0, pyroundQ_le _ _ hqle⟩

lemma merge_record_inv (old : PlayerRecord) (disp : String)
    (off deff played wins : ℤ) (rd ro ra : Option String) (h : RecInv old)
    (hp : 0 ≤ played) (hw : 0 ≤ wins) (hwp : wins ≤ played) :
    RecInv (merge_record old disp off deff played wins rd ro ra) := by
  obtain ⟨h1, h2, h3⟩ := h
  refine ⟨?_, ?_, ?_⟩ <;> simp only [merge_record] <;> omega

lemma load_line_inv (reg : Registry) (disp : String)
    (off deff played win_rate : ℤ) (avgOpt : Option ℤ)
    (rd ro ra : Option String) (hreg : RegInv reg) (hp : 0 ≤ played)
    (h0 : 0 ≤ win_rate) (h100 : win_rate ≤ 100) :
    RegInv (load_line reg disp off deff played win_rate avgOpt rd ro ra) := by
  have hwb : 0 ≤ (if played > 0 then
        pyroundQ ((((win_rate : ℤ) : ℚ)) / 100 * (((played : ℤ)) : ℚ))
      else 0) ∧
      (if played > 0 then
        pyroundQ ((((win_rate : ℤ) : ℚ)) / 100 * (((played : ℤ)) : ℚ))
      else 0) ≤ played := by
    split_ifs with hgt
    · exact load_wins_bounds played win_rate hp h0 h100
    · exact ⟨le_rfl, hp⟩
  cases hk : reg (canonicalize disp) with
  | some old =>
      simp only [load_line, hk]
      intro k rc hkc
      beta_reduce at hkc
      by_cases hke : k = canonicalize disp
      · rw [if_pos hke] at hkc
        injection hkc with hrc
        rw [← hrc]
        exact merge_record_inv _ _ _ _ _ _ _ _ _ (hreg _ _ hk) hp hwb.1 hwb.2
      · rw [if_neg hke] at hkc
        exact hreg _ _ hkc
  | none =>
      simp only [load_line, hk]
      intro k rc hkc
      beta_reduce at hkc
      by_cases hke : k = canonicalize disp
      · rw [if_pos hke] at hkc
        split_ifs at hkc <;>
          (injection hkc with hrc; rw [← hrc]) <;>
          first
            | exact ⟨hp, (load_wins_bounds played win_rate hp h0 h100).1,
                (load_wins_bounds played win_rate hp h0 h100).2⟩
            | exact ⟨hp, le_rfl, hp⟩
      · rw [if_neg hke] at hkc
        exact hreg _ _ hkc

lemma get_or_create_player_inv (reg : Registry) (n : String)
    (h : RegInv reg) :
    RegInv (get_or_create_player reg n).1 ∧
    RecInv (get_or_create_player reg n).2 := by
  cases hk : reg (canonicalize n) with
  | some rec0 =>
      simp only [get_or_create_player, hk]
      exact ⟨h, h _ _ hk⟩
  | none =>
      simp only [get_or_create_player, hk]
      constructor
      · intro k rc hkc
        beta_reduce at hkc
        by_cases hke : k = canonicalize n
        · rw [if_pos hke] at hkc
          injection hkc with hrc
          rw [← hrc]
          split_ifs <;> exact ⟨le_rfl, le_rfl, le_rfl⟩
        · rw [if_neg hke] at hkc
          exact h _ _ hkc
      · split_ifs <;> exact ⟨le_rfl, le_rfl, le_rfl⟩

lemma create_players_inv (names : List String) (reg : Registry)
    (h : RegInv reg) : RegInv (create_players reg names) := by
  induction names generalizing reg with
  | nil => exact h
  | cons a l ih =>
      simp only [create_players, List.foldl_cons]
      exact ih _ (get_or_create_player_inv reg a h).1

lemma role_set_played (role : Role) (p : PlayerRecord) (v : ℤ) :
    (role.set p v).played = p.played := by
  cases role <;> rfl

lemma role_set_wins (role : Role) (p : PlayerRecord) (v : ℤ) :
    (role.set p v).wins = p.wins := by
  cases role <;> rfl

lemma apply_update_list_inv (names : List String) :
    ∀ (reg reg' : Registry) (role : Role) (score : ℤ) (oppRef : Option ℚ)
      (mult : ℚ) (winInc : ℤ), 0 ≤ winInc → winInc ≤ 1 →
      apply_update_list reg names role score oppRef mult winInc = some reg' →
      RegInv reg → RegInv reg' := by
  induction names with
  | nil =>
      intro reg reg' role score oppRef mult winInc h0 h1 happ hreg
      simp only [apply_update_list, List.foldlM] at happ
      injection happ with h
      rw [← h]
      exact hreg
  | cons a l ih =>
      intro reg reg' role score oppRef mult winInc h0 h1 happ hreg
      cases hopp : oppRef with
      | none =>
          rw [hopp] at happ
          simp only [apply_update_list, List.foldlM, Option.bind_eq_bind,
            Option.none_bind] at happ
          exact Option.noConfusion happ
      | some o =>
          rw [hopp] at happ
          simp only [apply_update_list, List.foldlM, Option.bind_eq_bind,
            Option.some_bind] at happ
          refine ih _ _ role score (some o) mult winInc h0 h1 happ ?_
          intro k rc hkc
          beta_reduce at hkc
          by_cases hke : k = canonicalize a
          · rw [if_pos hke] at hkc
            injection hkc with hrc
            rw [← hrc]
            obtain ⟨hp1, hp2, hp3⟩ := (get_or_create_player_inv reg a hreg).2
            refine ⟨?_, ?_, ?_⟩ <;>
              simp only [role_set_played, role_set_wins] <;> omega
          · rw [if_neg hke] at hkc
            exact (get_or_create_player_inv reg a hreg).1 _ _ hkc

lemma save_data_update_inv (reg : Registry) (h : RegInv reg) :
    RegInv (save_data_update reg) := by
  intro k rc hkc
  unfold save_data_update at hkc
  cases hk : reg k with
  | none => rw [hk] at hkc; exact Option.noConfusion hkc
  | some rec0 =>
      rw [hk] at hkc
      injection hkc with hrc
      rw [← hrc]
      have hrec := h _ _ hk
      exact ⟨hrec.1, hrec.2.1, hrec.2.2⟩

lemma process_game_inv (reg : Registry) (t1o t1d t2o t2d : List String)
    (wt : String) (reg' : Registry)
    (h : process_game reg t1o t1d t2o t2d wt = .ok reg') (hreg : RegInv reg) :
    RegInv reg' := by
  cases hm : WIN_TYPE_MULTIPLIERS wt with
  | none =>
      simp only [process_game, hm] at h
      exact GameResult.noConfusion h
  | some m =>
      simp only [process_game, hm] at h
      have hreg1 : RegInv (create_players reg (t1o ++ t1d ++ t2o ++ t2d)) :=
        create_players_inv _ _ hreg
      split at h
      · exact GameResult.noConfusion h
      · rename_i r1 heq1
        split at h
        · exact GameResult.noConfusion h
        · rename_i r2 heq2
          split at h
          · exact GameResult.noConfusion h
          · rename_i r3 heq3
            split at h
            · exact GameResult.noConfusion h
            · rename_i r4 heq4
              injection h with h'
              rw [← h']
              have hr1 := apply_update_list_inv t1o _ _ _ _ _ _ _
                (by norm_num) (by norm_num) heq1 hreg1
              have hr2 := apply_update_list_inv t1d _ _ _ _ _ _ _
                (by norm_num) (by norm_num) heq2 hr1
              have hr3 := apply_update_list_inv t2o _ _ _ _ _ _ _
                (by norm_num) (by norm_num) heq3 hr2
              have hr4 := apply_update_list_inv t2d _ _ _ _ _ _ _
                (by norm_num) (by norm_num) heq4 hr3
              exact save_data_update_inv _ hr4

/-- C8: the counter invariant (games played and wins non-negative, wins not
exceeding games played) holds for every record after loading a well-formed
snapshot line, after merging two records that satisfy it, and after every
successfully processed match. -/
theorem counters_invariant :
    (∀ (reg : Registry) (disp : String) (off deff played win_rate : ℤ)
        (avgOpt : Option ℤ) (rd ro ra : Option String),
      RegInv reg → 0 ≤ played → 0 ≤ win_rate → win_rate ≤ 100 →
      RegInv (load_line reg disp off deff played win_rate avgOpt rd ro
        ra)) ∧
    (∀ (old : PlayerRecord) (disp : String) (off deff played wins : ℤ)
        (rd ro ra : Option String),
      RecInv old → 0 ≤ played → 0 ≤ wins → wins ≤ played →
      RecInv (merge_record old disp off deff played wins rd ro ra)) ∧
    (∀ (reg : Registry) (t1o t1d t2o t2d : List String) (wt : String)
        (reg' : Registry),
      process_game reg t1o t1d t2o t2d wt = .ok reg' → RegInv reg →
      RegInv reg') :=
  ⟨fun reg disp off deff played win_rate avgOpt rd ro ra hreg hp h0 h100 =>
      load_line_inv reg disp off deff played win_rate avgOpt rd ro ra hreg
        hp h0 h100,
    fun old disp off deff played wins rd ro ra h hp hw hwp =>
      merge_record_inv old disp off deff played wins rd ro ra h hp hw hwp,
    fun reg t1o t1d t2o t2d wt reg' h hreg =>
      process_game_inv reg t1o t1d t2o t2d wt reg' h hreg⟩

/-- Witness for C8 at concrete inputs: loading a line with 10 games and win
percent 50 into the empty registry keeps the invariant, and so does merging
5 games / 2 wins into a record satisfying it. -/
theorem counters_invariant_witness :
    RegInv (load_line emptyReg ("Ann") 200 180 10 50 none none none none) ∧
    RecInv (merge_record bobRec ("Ann") 300 300 5 2 none none none) :=
  ⟨counters_invariant.1 emptyReg ("Ann") 200 180 10 50 none none none none
      (fun _ _ hc => Option.noConfusion hc) (by norm_num) (by norm_num)
      (by norm_num),
    counters_invariant.2.1 bobRec ("Ann") 300 300 5 2 none none none
      (by decide) (by norm_num) (by norm_num) (by norm_num)⟩

/-! ## Win-type tokens (C7) and empty rosters (C10) -/

/-- C7: a match command whose win-type token is none of the five members of
the closed enumeration is rejected with the registry unchanged, and the
five valid tokens map to their fixed multipliers. -/
theorem win_type_closed (reg : Registry) (t1o t1d t2o t2d : List String)
    (wt : String)
    (h : wt ≠ "win" ∧ wt ≠ "smallwin" ∧ wt ≠ "closewin" ∧ wt ≠ "bigwin" ∧
      wt ≠ "perfectwin") :
    process_game reg t1o t1d t2o t2d wt = .rejected reg ∧
    WIN_TYPE_MULTIPLIERS ("win") = some 1.0 ∧
    WIN_TYPE_MULTIPLIERS ("smallwin") = some 0.75 ∧
    WIN_TYPE_MULTIPLIERS ("closewin") = some 0.5 ∧
    WIN_TYPE_MULTIPLIERS ("bigwin") = some 1.25 ∧
    WIN_TYPE_MULTIPLIERS ("perfectwin") = some 1.5 := by
  have hnone : WIN_TYPE_MULTIPLIERS wt = none := by
    unfold WIN_TYPE_MULTIPLIERS
    rw [if_neg h.1, if_neg h.2.1, if_neg h.2.2.1, if_neg h.2.2.2.1,
      if_neg h.2.2.2.2]
  refine ⟨?_, rfl, rfl, rfl, rfl, rfl⟩
  simp only [process_game, hnone]

/-- Witness for C7 at a concrete input: the token tie is rejected on the
empty registry with two one-player rosters. -/
theorem win_type_closed_witness :
    process_game emptyReg [("a")] [] [("b")] [] ("tie") =
        .rejected emptyReg ∧
    WIN_TYPE_MULTIPLIERS ("win") = some 1.0 ∧
    WIN_TYPE_MULTIPLIERS ("smallwin") = some 0.75 ∧
    WIN_TYPE_MULTIPLIERS ("closewin") = some 0.5 ∧
    WIN_TYPE_MULTIPLIERS ("bigwin") = some 1.25 ∧
    WIN_TYPE_MULTIPLIERS ("perfectwin") = some 1.5 :=
  win_type_closed emptyReg [("a")] [] [("b")] [] ("tie")
    (by refine ⟨?_, ?_, ?_, ?_, ?_⟩ <;> decide)

lemma apply_update_list_cons_none (reg : Registry) (n : String)
    (rest : List String) (role : Role) (score : ℤ) (mult : ℚ)
    (winInc : ℤ) :
    apply_update_list reg (n :: rest) role score none mult winInc = none := by
  simp only [apply_update_list, List.foldlM, Option.bind_eq_bind,
    Option.none_bind]

lemma opp_ref_empty (r : Registry) (role1 role2 : Role) :
    (if ([] : List String) ≠ [] then get_average_rating r [] role1
     else get_average_rating r [] role2) = none := by
  rw [if_neg (by simp)]
  simp [get_average_rating]

lemma apply_update_list_nil (reg : Registry) (role : Role) (score : ℤ)
    (oppRef : Option ℚ) (mult : ℚ) (winInc : ℤ) :
    apply_update_list reg [] role score oppRef mult winInc = some reg := rfl

/-- C10: whenever one team's roster (both sub-rosters) resolves to no
players, the opponent reference rating for the other team is absent
(`none`), and a match in which the other team names at least one player in
either role has no defined result (the Python code raises on the `None`
arithmetic): non-empty rosters on both sides are a precondition. -/
theorem empty_roster_crash (reg : Registry)
    (t1o t1d t2o t2d : List String) (wt : String) (m : ℚ)
    (hwt : WIN_TYPE_MULTIPLIERS wt = some m)
    (hempty : (t1o = [] ∧ t1d = [] ∧ (t2o ≠ [] ∨ t2d ≠ [])) ∨
      (t2o = [] ∧ t2d = [] ∧ (t1o ≠ [] ∨ t1d ≠ []))) :
    (∀ (r : Registry) (role : Role), get_average_rating r [] role = none) ∧
    process_game reg t1o t1d t2o t2d wt = .crashed := by
  refine ⟨fun r role => by simp [get_average_rating], ?_⟩
  rcases hempty with ⟨h1, h2, h3⟩ | ⟨h1, h2, h3⟩
  · subst h1
    subst h2
    cases t2o with
    | cons n rest =>
        simp only [process_game, hwt, apply_update_list_nil, opp_ref_empty,
          apply_update_list_cons_none]
    | nil =>
        have h4 : t2d ≠ [] := by
          rcases h3 with h | h
          · exact absurd rfl h
          · exact h
        obtain ⟨n, rest, rfl⟩ := List.exists_cons_of_ne_nil h4
        simp only [process_game, hwt, apply_update_list_nil, opp_ref_empty,
          apply_update_list_cons_none]
  · subst h1
    subst h2
    cases t1o with
    | cons n rest =>
        simp only [process_game, hwt, apply_update_list_nil, opp_ref_empty,
          apply_update_list_cons_none]
    | nil =>
        have h4 : t1d ≠ [] := by
          rcases h3 with h | h
          · exact absurd rfl h
          · exact h
        obtain ⟨n, rest, rfl⟩ := List.exists_cons_of_ne_nil h4
        simp only [process_game, hwt, apply_update_list_nil, opp_ref_empty,
          apply_update_list_cons_none]

/-- Witness for C10 at concrete inputs exercising both directions: one
offense player against an entirely empty team 2 crashes, and an entirely
empty team 1 against one defense player on team 2 crashes. -/
theorem empty_roster_crash_witness :
    process_game emptyReg [("alice")] [] [] [] ("win") = .crashed ∧
    process_game emptyReg [] [] [] [("bob")] ("win") = .crashed :=
  ⟨(empty_roster_crash emptyReg [("alice")] [] [] [] ("win") 1.0 rfl
      (Or.inr ⟨rfl, rfl, Or.inl (by decide)⟩)).2,
    (empty_roster_crash emptyReg [] [] [] [("bob")] ("win") 1.0 rfl
      (Or.inl ⟨rfl, rfl, Or.inr (by decide)⟩)).2⟩

end Foosball
